import Mathlib

/-!
Verification of the naruto aufs layer manager against its specification.

The definitions below are a shallow embedding of `src/naruto/layer.py`,
`src/naruto/mount.py` and `src/naruto/aufs.py`.  Paths are modelled as lists
of path components (a mountpoint `/` is `[]`), Python exceptions become
explicit error values, and the kernel mount table becomes an explicit list
of mount records threaded through the operations.
-/

namespace Naruto

/-- Branch permission in an aufs stack; the source passes the literal strings
`'rw'` and `'ro'`. -/
inductive Perm where
  | rw
  | ro
deriving DecidableEq, Repr

/-- One entry of a layer's `children/` directory as seen by
`pathlib.Path.iterdir`: a name together with whether it is a directory. -/
structure DirEntry where
  name : String
  isDir : Bool
deriving DecidableEq, Repr

/-- `NarutoLayer.iter_children` (layer.py lines 98-104): iterate the
`children/` directory, yielding only the entries that are directories. -/
def iter_children (entries : List DirEntry) : List DirEntry :=
  entries.filter (fun e => e.isDir)

/-- `NarutoLayer.has_children` (layer.py lines 172-177):
`next(iter(self), None) is not None`, i.e. the child iterator is nonempty. -/
def has_children (entries : List DirEntry) : Bool :=
  (iter_children entries).head?.isSome

/-- `NarutoLayer.read_only` is an alias of `has_children`
(layer.py line 187: `read_only = has_children`). -/
def read_only (entries : List DirEntry) : Bool :=
  has_children entries

/-- The persisted metadata record `naruto_metadata.json` (layer.py):
keys `is_root`, `description` and the optional `tags` (absent modelled as
the empty list, matching `get('tags', ())`). -/
structure Metadata where
  is_root : Bool
  description : String
  tags : List String
deriving DecidableEq, Repr

/-- The `tags` getter (layer.py lines 157-162):
`frozenset(self.get_metadata().get('tags', ()))` — the observable value is
the set of stored tag strings. -/
def tags_read (md : Metadata) : Finset String :=
  md.tags.toFinset

/-- The `tags` setter (layer.py lines 164-170):
`metadata['tags'] = tuple(set(str(value) for value in tags))` — a
duplicate-free sequence of the given tags.  A Python set iterates in an
unspecified order, so the stored list is modelled by `List.dedup`; only the
element set is observable through the getter. -/
def tags_write (md : Metadata) (ts : List String) : Metadata :=
  { md with tags := ts.dedup }

/-- C10: a non-directory entry placed inside `children/` is skipped by
`iter_children`, is never returned as a child, and leaves `has_children`
and `read_only` unchanged. -/
theorem c10_nondir_entries_skipped (pre post : List DirEntry) (e : DirEntry)
    (h : e.isDir = false) :
    iter_children (pre ++ e :: post) = iter_children (pre ++ post) ∧
    e ∉ iter_children (pre ++ e :: post) ∧
    has_children (pre ++ e :: post) = has_children (pre ++ post) ∧
    read_only (pre ++ e :: post) = read_only (pre ++ post) := by
  have hfilter : iter_children (pre ++ e :: post) = iter_children (pre ++ post) := by
    simp [iter_children, List.filter_append, h]
  refine ⟨hfilter, ?_, ?_, ?_⟩
  · intro hmem
    have := List.of_mem_filter hmem
    rw [h] at this
    exact Bool.false_ne_true this
  · simp [has_children, hfilter]
  · simp [read_only, has_children, hfilter]

/-- Witness for C10 at a concrete `children/` listing: one real child
directory plus a stray regular file. -/
theorem c10_nondir_entries_skipped_witness :
    iter_children ([⟨"a", true⟩] ++ ⟨"f", false⟩ :: []) =
      iter_children ([⟨"a", true⟩] ++ []) ∧
    (⟨"f", false⟩ : DirEntry) ∉ iter_children ([⟨"a", true⟩] ++ ⟨"f", false⟩ :: []) ∧
    has_children ([⟨"a", true⟩] ++ ⟨"f", false⟩ :: []) =
      has_children ([⟨"a", true⟩] ++ []) ∧
    read_only ([⟨"a", true⟩] ++ ⟨"f", false⟩ :: []) =
      read_only ([⟨"a", true⟩] ++ []) :=
  c10_nondir_entries_skipped [⟨"a", true⟩] [] ⟨"f", false⟩ rfl

/-- The on-disk layer tree (layer.py).  A node carries the layer id (the
basename of the layer directory), the metadata tags, and the child layers
stored under `children/`.  All children of a node are directories, matching
what `iter_children` yields. -/
inductive LayerTree where
  | node (layer_id : String) (tags : List String) (children : List LayerTree)

/-- The layer id of a node (`NarutoLayer.layer_id`). -/
def LayerTree.layer_id : LayerTree → String
  | .node i _ _ => i

/-- The metadata tags of a node. -/
def LayerTree.tags : LayerTree → List String
  | .node _ t _ => t

/-- The child layers of a node. -/
def LayerTree.children : LayerTree → List LayerTree
  | .node _ _ c => c

/-- The `contents/` directory of a layer
(`NarutoLayer.contents_path = <layer_dir>/contents`); layer ids are unique,
so the id determines the contents directory. -/
def LayerTree.contents (t : LayerTree) : String :=
  t.layer_id ++ "/contents"

/-- `'ro' if self.read_only else 'rw'` (layer.py line 232), with
`read_only = has_children`. -/
def layer_perm (t : LayerTree) : Perm :=
  if t.children.isEmpty then Perm.rw else Perm.ro

/-- A layer addressed by its child-index path from the root of the tree. -/
def layerAt (t : LayerTree) : List Nat → Option LayerTree
  | [] => some t
  | i :: p =>
    match t.children.get? i with
    | none => none
    | some c => layerAt c p

/-- `NarutoLayer.get_layer_permissions` (layer.py lines 228-238).  The source
recurses upward (`[my_perms] + self.parent.get_layer_permissions()`,
stopping when `is_root`); addressing the layer by its path from the root,
the same list is produced by appending the current node's entry after the
sublayer's list.  `is_root` holds exactly at the tree root in a well-formed
tree. -/
def get_layer_permissions (t : LayerTree) : List Nat → Option (List (String × Perm))
  | [] => some [(t.contents, layer_perm t)]
  | i :: p =>
    match t.children.get? i with
    | none => none
    | some c =>
      match get_layer_permissions c p with
      | none => none
      | some l => some (l ++ [(t.contents, layer_perm t)])

/-- The strict ancestors of the layer at a path, nearest parent first. -/
def ancestorChain (t : LayerTree) : List Nat → Option (List LayerTree)
  | [] => some []
  | i :: p =>
    match t.children.get? i with
    | none => none
    | some c => (ancestorChain c p).map (fun l => l ++ [t])

/-- C3: for a layer `L` at path `p`, `get_layer_permissions` returns the list
headed by `(L.contents, rw if L has no children else ro)` followed by the
contents of `L`'s ancestors in order up to the root, each paired with `ro`;
the list has length `1 + depth`, so at most one entry is `rw` and it is at
position 0. -/
theorem c3_layer_permissions (t L : LayerTree) (p : List Nat) (anc : List LayerTree)
    (hL : layerAt t p = some L) (hanc : ancestorChain t p = some anc) :
    get_layer_permissions t p =
      some ((L.contents, layer_perm L) :: anc.map (fun n => (n.contents, Perm.ro))) ∧
    anc.length = p.length := by
  induction p generalizing t anc with
  | nil =>
    simp [layerAt] at hL
    simp [ancestorChain] at hanc
    subst hL
    subst hanc
    simp [get_layer_permissions]
  | cons i p ih =>
    simp only [layerAt] at hL
    simp only [ancestorChain] at hanc
    cases hget : t.children.get? i with
    | none =>
      rw [hget] at hL
      exact absurd hL (by simp)
    | some c =>
      rw [hget] at hL hanc
      dsimp only at hL hanc
      cases hanc0 : ancestorChain c p with
      | none =>
        rw [hanc0] at hanc
        exact absurd hanc (by simp [Option.map_none'])
      | some anc0 =>
        rw [hanc0] at hanc
        simp only [Option.map_some', Option.some.injEq] at hanc
        obtain ⟨hperm, hlen⟩ := ih c anc0 hL hanc0
        have hro : layer_perm t = Perm.ro := by
          unfold layer_perm
          cases hch : t.children with
          | nil => rw [hch] at hget; simp [List.get?] at hget
          | cons a l => simp
        constructor
        · simp only [get_layer_permissions, hget, hperm]
          rw [← hanc]
          simp [hro]
        · rw [← hanc]
          simp [hlen]

/-- A small concrete tree used by the witnesses:
root `r` with children `c1` (which has child `c1a`) and `c2` (tagged "wip"). -/
def sampleTree : LayerTree :=
  .node "r" [] [.node "c1" [] [.node "c1a" [] []], .node "c2" ["wip"] []]

/-- Witness for C3 at the layer `c1a` (path `[0, 0]` in `sampleTree`). -/
theorem c3_layer_permissions_witness :
    get_layer_permissions sampleTree [0, 0] =
      some (((LayerTree.node "c1a" [] []).contents,
              layer_perm (.node "c1a" [] [])) ::
        ([LayerTree.node "c1" [] [.node "c1a" [] []], sampleTree].map
          (fun n => (n.contents, Perm.ro)))) ∧
    ([LayerTree.node "c1" [] [.node "c1a" [] []], sampleTree].length = [0, 0].length) :=
  c3_layer_permissions sampleTree (.node "c1a" [] []) [0, 0]
    [.node "c1" [] [.node "c1a" [] []], sampleTree] rfl rfl

/-- One record of the kernel mount table (mount.py `MountEntry`).  The
mountpoint `file` is modelled as its list of path components after the
root, so the mountpoint `/` is `[]`.  The fields not consulted by
`find_mount_by_dest` (`mntops`, `freq`, `passno`) are elided. -/
structure MountEntry where
  spec : String
  file : List String
  vfstype : String
deriving DecidableEq, Repr

/-- `pathlib.Path.relative_to(mnt)` on component lists: the remainder of
`dest` after the mountpoint when the mountpoint is a path prefix, and
`none` (the `ValueError` branch) otherwise. -/
def relative_to : List String → List String → Option (List String)
  | dest, [] => some dest
  | [], _ :: _ => none
  | d :: ds, m :: ms => if d = m then relative_to ds ms else none

/-- Stable insertion into a run sorted by ascending relative-path length.
Python's `list.sort` is stable, so an element is placed before the first
element of strictly greater or equal key coming from later table rows. -/
def insertMatch (x : MountEntry × List String) :
    List (MountEntry × List String) → List (MountEntry × List String)
  | [] => [x]
  | y :: ys => if x.2.length ≤ y.2.length then x :: y :: ys else y :: insertMatch x ys

/-- `matches.sort(key=lambda match: len(match[1].parts))` (mount.py line 157),
as a stable insertion sort. -/
def sortMatches :
    List (MountEntry × List String) → List (MountEntry × List String)
  | [] => []
  | x :: xs => insertMatch x (sortMatches xs)

/-- `find_mount_by_dest` (mount.py lines 115-159).  `resolveFn` is the
filesystem's `Path.resolve`: `some` gives the canonical path of an existing
path, `none` stands for the `FileNotFoundError` the source swallows, after
which the literal path is used.  Collect every table entry whose mountpoint
is a prefix of the destination together with the relative remainder, sort
by remainder length and return the first entry; raise `KeyError` (modelled
as `Except.error`) when there is no match. -/
def find_mount_by_dest (resolveFn : List String → Option (List String))
    (dest : List String) (table : List MountEntry) : Except String MountEntry :=
  let d := (resolveFn dest).getD dest
  let ms := table.filterMap (fun m => (relative_to d m.file).map (fun r => (m, r)))
  match sortMatches ms with
  | [] => Except.error "Unable to find mount"
  | x :: _ => Except.ok x.1

/-- `relative_to` succeeds exactly on path prefixes, returning the dropped
remainder. -/
theorem relative_to_eq_some (dest mnt r : List String) :
    relative_to dest mnt = some r ↔ mnt ++ r = dest := by
  induction mnt generalizing dest with
  | nil => simp [relative_to, eq_comm]
  | cons m ms ih =>
    cases dest with
    | nil => simp [relative_to]
    | cons d ds =>
      by_cases h : d = m
      · subst h
        simp [relative_to, ih]
      · simp only [relative_to, h, if_false]
        constructor
        · intro hfalse
          exact absurd hfalse (by simp)
        · intro heq
          have : m = d := (List.cons.injEq _ _ _ _ ▸ heq).1
          exact absurd this.symm h

/-- Membership is preserved by `insertMatch`. -/
theorem mem_insertMatch (x y : MountEntry × List String)
    (l : List (MountEntry × List String)) :
    y ∈ insertMatch x l ↔ y = x ∨ y ∈ l := by
  induction l with
  | nil => simp [insertMatch]
  | cons a l ih =>
    by_cases h : x.2.length ≤ a.2.length
    · simp [insertMatch, h]
    · simp [insertMatch, h, ih]
      tauto

/-- Membership is preserved by `sortMatches`. -/
theorem mem_sortMatches (y : MountEntry × List String)
    (l : List (MountEntry × List String)) :
    y ∈ sortMatches l ↔ y ∈ l := by
  induction l with
  | nil => simp [sortMatches]
  | cons a l ih => simp [sortMatches, mem_insertMatch, ih]

/-- `insertMatch` never produces the empty list. -/
theorem insertMatch_ne_nil (x : MountEntry × List String)
    (l : List (MountEntry × List String)) : insertMatch x l ≠ [] := by
  cases l with
  | nil => simp [insertMatch]
  | cons a l =>
    unfold insertMatch
    split <;> simp

/-- `sortMatches` is empty exactly on the empty list. -/
theorem sortMatches_eq_nil (l : List (MountEntry × List String)) :
    sortMatches l = [] ↔ l = [] := by
  cases l with
  | nil => simp [sortMatches]
  | cons a l =>
    simp only [sortMatches]
    exact ⟨fun h => absurd h (insertMatch_ne_nil _ _), fun h => absurd h (by simp)⟩

/-- The head of `sortMatches` has minimal key among the input matches. -/
theorem sortMatches_head_min (l : List (MountEntry × List String))
    (x : MountEntry × List String) (tl : List (MountEntry × List String))
    (heq : sortMatches l = x :: tl) :
    ∀ y ∈ l, x.2.length ≤ y.2.length := by
  induction l generalizing x tl with
  | nil => simp [sortMatches] at heq
  | cons a l ih =>
    simp only [sortMatches] at heq
    cases hl : sortMatches l with
    | nil =>
      rw [hl] at heq
      simp only [insertMatch] at heq
      have hln : l = [] := (sortMatches_eq_nil l).1 hl
      subst hln
      intro y hy
      simp at hy
      subst hy
      simp at heq
      rw [heq.1]
    | cons b tl2 =>
      rw [hl] at heq
      by_cases hab : a.2.length ≤ b.2.length
      · simp only [insertMatch, hab, if_true] at heq
        have hxa : a = x := (List.cons.injEq _ _ _ _ ▸ heq).1
        subst hxa
        intro y hy
        rcases List.mem_cons.1 hy with hy | hy
        · subst hy; exact le_refl _
        · have := ih b tl2 hl y hy
          exact le_trans hab this
      · simp only [insertMatch, hab, if_false] at heq
        have hxb : b = x := (List.cons.injEq _ _ _ _ ▸ heq).1
        subst hxb
        intro y hy
        rcases List.mem_cons.1 hy with hy | hy
        · subst hy
          exact le_of_lt (Nat.lt_of_not_le hab)
        · exact ih _ tl2 hl y hy

/-- Unfolding equation for `find_mount_by_dest`. -/
theorem find_mount_by_dest_eq (resolveFn : List String → Option (List String))
    (dest : List String) (table : List MountEntry) :
    find_mount_by_dest resolveFn dest table =
      (match sortMatches (table.filterMap (fun m =>
          (relative_to ((resolveFn dest).getD dest) m.file).map (fun r => (m, r)))) with
        | [] => (Except.error "Unable to find mount" : Except String MountEntry)
        | x :: _ => Except.ok x.1) := rfl

/-- `relative_to` fails exactly off path prefixes. -/
theorem relative_to_eq_none (dest mnt : List String) :
    relative_to dest mnt = none ↔ ¬ mnt <+: dest := by
  constructor
  · intro hnone hpre
    obtain ⟨r, hr⟩ := hpre
    rw [(relative_to_eq_some dest mnt r).2 hr] at hnone
    exact absurd hnone (by simp)
  · intro hnp
    cases hrel : relative_to dest mnt with
    | none => rfl
    | some r =>
      exact absurd ⟨r, (relative_to_eq_some dest mnt r).1 hrel⟩ hnp

/-- C4: `find_mount_by_dest` behaves as on the canonicalized destination
(the literal path when resolution raised `FileNotFoundError`), fails with
`KeyError` exactly when no mountpoint in the table is a path prefix of the
destination, and otherwise returns a table entry whose mountpoint is a
prefix with the most path components. -/
theorem c4_find_mount_by_dest (resolveFn : List String → Option (List String))
    (dest : List String) (table : List MountEntry) :
    find_mount_by_dest resolveFn dest table =
      find_mount_by_dest (fun _ => none) ((resolveFn dest).getD dest) table ∧
    ((∃ e, find_mount_by_dest resolveFn dest table = Except.error e) ↔
      ∀ m ∈ table, ¬ m.file <+: ((resolveFn dest).getD dest)) ∧
    (∀ m, find_mount_by_dest resolveFn dest table = Except.ok m →
      m ∈ table ∧ m.file <+: ((resolveFn dest).getD dest) ∧
      ∀ m2 ∈ table, m2.file <+: ((resolveFn dest).getD dest) →
        m2.file.length ≤ m.file.length) := by
  refine ⟨rfl, ?_, ?_⟩
  · rw [find_mount_by_dest_eq]
    cases hsort : sortMatches (table.filterMap (fun m =>
        (relative_to ((resolveFn dest).getD dest) m.file).map (fun r => (m, r)))) with
    | nil =>
      simp only []
      constructor
      · intro _ m hm hpre
        have hms := (sortMatches_eq_nil _).1 hsort
        rw [List.filterMap_eq_nil_iff] at hms
        have := hms m hm
        obtain ⟨r, hr⟩ := hpre
        rw [(relative_to_eq_some _ _ r).2 hr] at this
        exact absurd this (by simp)
      · intro _
        exact ⟨"Unable to find mount", rfl⟩
    | cons x tl =>
      simp only []
      constructor
      · intro ⟨e, he⟩
        exact absurd he (by simp)
      · intro hall
        have hxmem : x ∈ sortMatches (table.filterMap (fun m =>
            (relative_to ((resolveFn dest).getD dest) m.file).map (fun r => (m, r)))) := by
          rw [hsort]; exact List.mem_cons_self _ _
        rw [mem_sortMatches, List.mem_filterMap] at hxmem
        obtain ⟨a, ha, hfa⟩ := hxmem
        cases hrel : relative_to ((resolveFn dest).getD dest) a.file with
        | none => rw [hrel] at hfa; exact absurd hfa (by simp)
        | some r =>
          rw [hrel] at hfa
          simp only [Option.map_some', Option.some.injEq] at hfa
          have hpre : a.file <+: ((resolveFn dest).getD dest) :=
            ⟨r, (relative_to_eq_some _ _ r).1 hrel⟩
          exact absurd hpre (hall a ha)
  · intro m hok
    rw [find_mount_by_dest_eq] at hok
    cases hsort : sortMatches (table.filterMap (fun m =>
        (relative_to ((resolveFn dest).getD dest) m.file).map (fun r => (m, r)))) with
    | nil =>
      rw [hsort] at hok
      exact absurd hok (by simp)
    | cons x tl =>
      rw [hsort] at hok
      simp only [Except.ok.injEq] at hok
      have hxmem : x ∈ sortMatches (table.filterMap (fun m =>
          (relative_to ((resolveFn dest).getD dest) m.file).map (fun r => (m, r)))) := by
        rw [hsort]; exact List.mem_cons_self _ _
      rw [mem_sortMatches, List.mem_filterMap] at hxmem
      obtain ⟨a, ha, hfa⟩ := hxmem
      cases hrel : relative_to ((resolveFn dest).getD dest) a.file with
      | none => rw [hrel] at hfa; exact absurd hfa (by simp)
      | some r =>
        rw [hrel] at hfa
        simp only [Option.map_some', Option.some.injEq] at hfa
        have hxa : x.1 = a := by rw [← hfa]
        have hxr : x.2 = r := by rw [← hfa]
        have hm : m = a := by rw [← hok, hxa]
        subst hm
        have hsum : m.file.length + r.length =
            ((resolveFn dest).getD dest).length := by
          have := (relative_to_eq_some _ _ r).1 hrel
          rw [← this]
          simp
        refine ⟨ha, ⟨r, (relative_to_eq_some _ _ r).1 hrel⟩, ?_⟩
        intro m2 hm2 hpre2
        obtain ⟨r2, hr2⟩ := hpre2
        have hmem2 : (m2, r2) ∈ table.filterMap (fun m =>
            (relative_to ((resolveFn dest).getD dest) m.file).map (fun r => (m, r))) := by
          rw [List.mem_filterMap]
          exact ⟨m2, hm2, by rw [(relative_to_eq_some _ _ r2).2 hr2]; rfl⟩
        have hmin := sortMatches_head_min _ x tl hsort (m2, r2) hmem2
        rw [hxr] at hmin
        have hmin2 : r.length ≤ r2.length := hmin
        have hsum2 : m2.file.length + r2.length =
            ((resolveFn dest).getD dest).length := by
          rw [← hr2]; simp
        omega

/-- The mount table of spec scenario S6: mountpoints `/`, `/proc` and
`/dev/pts`. -/
def sampleTable : List MountEntry :=
  [⟨"rootfs", [], "rootfs"⟩, ⟨"proc", ["proc"], "proc"⟩,
   ⟨"devpts", ["dev", "pts"], "devpts"⟩]

/-- Witness for C4: `find_mount_by_dest` on `/proc/geoff` against the S6
table returns the `/proc` entry, a longest-prefix match. -/
theorem c4_find_mount_by_dest_witness :
    (⟨"proc", ["proc"], "proc"⟩ : MountEntry) ∈ sampleTable ∧
    (["proc"] : List String) <+: ["proc", "geoff"] ∧
    ∀ m2 ∈ sampleTable, m2.file <+: ["proc", "geoff"] →
      m2.file.length ≤ (["proc"] : List String).length :=
  (c4_find_mount_by_dest (fun _ => none) ["proc", "geoff"] sampleTable).2.2
    ⟨"proc", ["proc"], "proc"⟩ rfl

/-- A mount destination as the guard in `NarutoLayer.mount` observes it:
whether `destination.is_dir()` holds, and the entries the directory
contains (empty when it is not a directory). -/
structure Destination where
  isDir : Bool
  entries : List String
deriving DecidableEq, Repr

/-- Outcome of `NarutoLayer.mount` up to the driver invocation.
`typeError` is the `TypeError` Python raises for `next(destination, None)`
— a `pathlib.Path` is not an iterator; `precondFailed` is the guard's own
`Exception('... must be directory and must be empty')`; `driver opts`
means `naruto.mount.mount` was invoked with the given aufs option string. -/
inductive MountAttempt where
  | typeError
  | precondFailed
  | driver (opts : String)
deriving DecidableEq, Repr

/-- `'rw'` / `'ro'` rendering of a permission. -/
def permString : Perm → String
  | Perm.rw => "rw"
  | Perm.ro => "ro"

/-- The aufs option string `br:<p1>=<perm1>:<p2>=<perm2>:...`
(layer.py lines 339-342). -/
def branchString (branches : List (String × Perm)) : String :=
  "br:" ++ String.intercalate ":"
    (branches.map (fun pr => pr.1 ++ "=" ++ permString pr.2))

/-- `NarutoLayer.mount` (layer.py lines 324-346) restricted to its guard and
driver call.  The source guard is
`if not destination.is_dir() and next(destination, None) is not None`:
Python evaluates `not is_dir()` first, so for a directory the whole
condition short-circuits to `False` and the driver is invoked regardless of
the directory's entries; for a non-directory, `next` is applied to a
`pathlib.Path`, which raises `TypeError` before the guard's own exception
can be raised. -/
def NarutoLayer.mount (dest : Destination) (branches : List (String × Perm)) :
    MountAttempt :=
  if dest.isDir = false then MountAttempt.typeError
  else MountAttempt.driver (branchString branches)

/-- C2 (code bug): mounting onto a non-empty directory does not fail with
`PreconditionFailed` — the driver is invoked anyway, because
`not destination.is_dir()` short-circuits the guard; a non-directory
destination raises `TypeError` (from `next` on a `Path`), not the guard's
exception; only an empty directory behaves as the claim states.  The
`precondFailed` outcome is unreachable: the guard is dead code. -/
theorem c2_mount_guard_dead :
    NarutoLayer.mount ⟨true, ["occupied.txt"]⟩ [("c1/contents", Perm.rw)] =
      MountAttempt.driver "br:c1/contents=rw" ∧
    NarutoLayer.mount ⟨false, []⟩ [("c1/contents", Perm.rw)] =
      MountAttempt.typeError ∧
    NarutoLayer.mount ⟨true, []⟩ [("c1/contents", Perm.rw)] =
      MountAttempt.driver "br:c1/contents=rw" := by
  refine ⟨?_, rfl, ?_⟩ <;> rfl

/-- A filesystem as `NarutoLayer.__init__` and `NarutoLayer.create` observe
it: the set of existing directories and the set of existing files, each
named by its component path. -/
structure FS where
  dirs : List (List String)
  files : List (List String)
deriving DecidableEq, Repr

/-- `NarutoLayer.__init__` validation (layer.py lines 73-87): the path must
contain the `children/` and `contents/` directories and the
`naruto_metadata.json` file, else `ValueError` (*NotALayer*) is raised. -/
def validLayer (fs : FS) (p : List String) : Bool :=
  fs.dirs.contains (p ++ ["children"]) &&
  fs.dirs.contains (p ++ ["contents"]) &&
  fs.files.contains (p ++ ["naruto_metadata.json"])

/-- Errors of `NarutoLayer.create`. -/
inductive CreateErr where
  | notALayer
  | fileExists
deriving DecidableEq, Repr

/-- `NarutoLayer.create` (layer.py lines 249-279).  For a non-root layer the
source validates `cls(parent_directory.parent)` — the *parent of the given
directory* (the layer directory whose `children/` directory was passed in)
— before any directory is created.  Then a fresh id names the new layer
directory, `children/` and `contents/` are created inside it, and the
metadata file is written (`create_file` fails when it already exists).
An error leaves the filesystem unchanged (the error constructors carry no
state). -/
def NarutoLayer.create (fs : FS) (parent_directory : List String)
    (is_root : Bool) (uuid : String) : Except CreateErr (FS × List String) :=
  if is_root = false && validLayer fs parent_directory.dropLast = false then
    Except.error CreateErr.notALayer
  else
    let sub := parent_directory ++ [uuid]
    if fs.dirs.contains sub then Except.error CreateErr.fileExists
    else
      Except.ok
        ({ dirs := sub :: (sub ++ ["children"]) :: (sub ++ ["contents"]) :: fs.dirs,
           files := (sub ++ ["naruto_metadata.json"]) :: fs.files }, sub)

/-- A filesystem holding exactly one valid layer at directory `L`. -/
def fsOneLayer : FS :=
  { dirs := [["L"], ["L", "children"], ["L", "contents"]],
    files := [["L", "naruto_metadata.json"]] }

/-- Counterexample to C5: `p = L/children` is not itself a valid layer
directory, yet `create(p, is_root=False)` succeeds, because the source
validates `Layer(p.parent)`, not `Layer(p)`. -/
theorem c5_counterexample :
    validLayer fsOneLayer ["L", "children"] = false ∧
    (NarutoLayer.create fsOneLayer ["L", "children"] false "ab12").isOk = true := by
  refine ⟨?_, ?_⟩ <;> rfl

/-- C5 (amended): non-root creation validates the *parent* of the given
directory — `create` receives the parent layer's `children/` directory and
constructs `Layer(parent_directory.parent)`; when that parent is not a
valid layer, creation fails with *NotALayer* before any directory or
metadata is created (the filesystem is returned unchanged only on
success). -/
theorem c5_create_validates_parent (fs : FS) (p : List String) (uuid : String)
    (h : validLayer fs p.dropLast = false) :
    NarutoLayer.create fs p false uuid = Except.error CreateErr.notALayer := by
  unfold NarutoLayer.create
  rw [h]
  rfl

/-- Witness for the amended C5: creating a non-root layer directly inside a
directory that is not a layer's `children/` directory fails. -/
theorem c5_create_validates_parent_witness :
    validLayer fsOneLayer ["X", "children"] = false ∧
    NarutoLayer.create fsOneLayer ["X", "children"] false "ab12" =
      Except.error CreateErr.notALayer :=
  ⟨rfl, c5_create_validates_parent fsOneLayer ["X", "children"] "ab12" rfl⟩

/-- Python exceptions the layer-spec resolver can raise.  `keyError` is the
source's *NotFound*; `stopIteration` leaks from `next(iter(...))` on a
childless layer; `attributeError` is `None.parent` / `None._resolve...`;
`assertionError` is the `assert depth > 0`; `valueError` is the dead
"Incorrectly syntax" guard. -/
inductive PyErr where
  | keyError (msg : String)
  | stopIteration
  | attributeError
  | assertionError
  | valueError (msg : String)
deriving DecidableEq, Repr

/-- `NarutoLayer.parent` (layer.py lines 311-322) on a path: Python `None`
for the root, otherwise the path one level up. -/
def parentPath (q : List Nat) : Option (List Nat) :=
  if q = [] then none else some q.dropLast

/-- The `@d` loop of `_resolve_single_rel_spec`:
`current_layer = current_layer.parent` repeated.  The root's parent is
Python `None`; asking `None` for its parent raises `AttributeError`.  Note
the loop can end *on* `None`, which is then returned. -/
def ascend : Option (List Nat) → Nat → Except PyErr (Option (List Nat))
  | cur, 0 => Except.ok cur
  | none, _ + 1 => Except.error PyErr.attributeError
  | some q, d + 1 => ascend (parentPath q) d

/-- The `~d` loop of `_resolve_single_rel_spec`:
`current_layer = next(iter(current_layer))` repeated; an exhausted child
iterator raises `StopIteration` (not `KeyError`). -/
def descendFirstPath : LayerTree → List Nat → Nat → Except PyErr (List Nat)
  | _, p, 0 => Except.ok p
  | L, p, d + 1 =>
    match L.children.head? with
    | none => Except.error PyErr.stopIteration
    | some c => descendFirstPath c (p ++ [0]) d

/-- `NarutoLayer._resolve_single_rel_spec` (layer.py lines 449-469) for the
layer at path `p` of tree `t`.  A successful result is `some` path; `none`
is Python `None`, which the source returns when the command falls through
every branch (e.g. `?`) or when the `@` loop ends exactly on the root's
`None` parent.  The `layerAt t p = none` branches are unreachable for a
layer that exists and are mapped to `attributeError`. -/
def resolve_single_rel_spec (t : LayerTree) (p : List Nat) (command : Char)
    (depth : Nat) : Except PyErr (Option (List Nat)) :=
  if depth = 0 then Except.error PyErr.assertionError
  else if command = '^' then
    match layerAt t p with
    | none => Except.error PyErr.attributeError
    | some L =>
      if depth ≤ L.children.length then Except.ok (some (p ++ [depth - 1]))
      else Except.error (PyErr.keyError "child not found")
  else if command = '~' then
    match layerAt t p with
    | none => Except.error PyErr.attributeError
    | some L => (descendFirstPath L p depth).map (fun q => some q)
  else if command = '@' then
    ascend (some p) depth
  else
    Except.ok none

/-- The characters `LAYER_REL_RE` recognises as relation commands:
`[\^?\~\@]` — note that `?` is among them. -/
def isRelChar (c : Char) : Bool :=
  c = '^' || c = '?' || c = '~' || c = '@'

/-- Decimal digit string to a number (`int(depth)`). -/
def digitsToNat (ds : List Char) : Nat :=
  ds.foldl (fun acc c => acc * 10 + (c.toNat - '0'.toNat)) 0

/-- The drop-while of a list is no longer than the list. -/
theorem dropWhile_length_le (p : Char → Bool) (l : List Char) :
    (l.dropWhile p).length ≤ l.length := by
  induction l with
  | nil => simp [List.dropWhile]
  | cons a l ih =>
    by_cases h : p a
    · rw [List.dropWhile_cons_of_pos h]
      exact Nat.le_succ_of_le ih
    · rw [List.dropWhile_cons_of_neg h]

/-- `LAYER_REL_RE.finditer(rel_spec)` with `re.compile(r'[\^?\~\@]\d*')`:
scan left to right; at a command character take the maximal run of digits
behind it (absent depth means 1), and *silently skip* every character that
matches nothing.  Each step consumes at least one character, so recursion
on a fuel equal to the input length is exact. -/
def scanRelOpsFuel : Nat → List Char → List (Char × Nat)
  | 0, _ => []
  | _ + 1, [] => []
  | fuel + 1, c :: rest =>
    if isRelChar c then
      (c, if (rest.takeWhile Char.isDigit).isEmpty then 1
          else digitsToNat (rest.takeWhile Char.isDigit)) ::
        scanRelOpsFuel fuel (rest.dropWhile Char.isDigit)
    else
      scanRelOpsFuel fuel rest

/-- The finditer scan at its exact fuel. -/
def scanRelOps (l : List Char) : List (Char × Nat) :=
  scanRelOpsFuel l.length l

/-- The relop loop of `find_layer` (layer.py lines 435-445):
`layer = layer._resolve_single_rel_spec(...)` left to right.  When an
earlier operator produced Python `None`, the attribute access on `None`
raises `AttributeError`. -/
def applyRelOps (t : LayerTree) : Option (List Nat) → List (Char × Nat) →
    Except PyErr (Option (List Nat))
  | cur, [] => Except.ok cur
  | none, _ :: _ => Except.error PyErr.attributeError
  | some p, (c, d) :: rest =>
    match resolve_single_rel_spec t p c d with
    | Except.error e => Except.error e
    | Except.ok nxt => applyRelOps t nxt rest

mutual

/-- `itertools.chain((root,), root.iter_descendants())`: the pre-order
listing of a tree, each layer paired with its path. -/
def preorderNode (pfx : List Nat) : LayerTree → List (List Nat × LayerTree)
  | .node i tg cs => (pfx, .node i tg cs) :: preorderList pfx 0 cs

/-- Pre-order listing of a child list starting at child index `i`. -/
def preorderList (pfx : List Nat) (i : Nat) :
    List LayerTree → List (List Nat × LayerTree)
  | [] => []
  | c :: cs => preorderNode (pfx ++ [i]) c ++ preorderList pfx (i + 1) cs

end

/-- The characters excluded from the reference part by
`LAYER_SPEC_RE = (?P<reference>[^?\~\^\@]*)(?P<rel_spec>.*)`. -/
def specials : List Char := ['?', '~', '^', '@']

/-- `NarutoLayer.find_layer` (layer.py lines 404-447) for the receiver at
path `selfPath` of root tree `t`.  `LAYER_SPEC_RE` always matches (both
groups may be empty), so the `raise ValueError('Incorrectly syntax...')`
branch is unreachable and has no counterpart here: the reference is the
longest prefix free of `? ~ ^ @`, the rest is handed to the finditer scan.
The reference resolves to the root for `root`, the receiver when empty,
else the first pre-order layer whose id or tag set matches (`KeyError`
when none).  `layer_spec.strip()` is `stripChars`. -/
def stripChars (s : List Char) : List Char :=
  ((s.dropWhile Char.isWhitespace).reverse.dropWhile Char.isWhitespace).reverse

def find_layer (t : LayerTree) (selfPath : List Nat) (layer_spec : String) :
    Except PyErr (Option (List Nat)) :=
  let s := stripChars layer_spec.toList
  let refStr := String.mk (s.takeWhile (fun c => !(specials.contains c)))
  let rel := s.dropWhile (fun c => !(specials.contains c))
  let start :=
    if refStr = "root" then Except.ok []
    else if refStr = "" then Except.ok selfPath
    else
      match (preorderNode [] t).find? (fun pr =>
          pr.2.layer_id == refStr || pr.2.tags.contains refStr) with
      | none => Except.error (PyErr.keyError "Unable to find layer")
      | some pr => Except.ok pr.1
  match start with
  | Except.error e => Except.error e
  | Except.ok p => applyRelOps t (some p) (scanRelOps rel)

/-- C6 (code bug): the relation operators do not uniformly fail with
*NotFound*.  On `sampleTree` (root with two children, the first having one
grandchild): `^3` does raise `KeyError`; but `~1` on the childless
grandchild raises `StopIteration`; `@1` on the root returns Python `None`
without any error; and `@2` on the root raises `AttributeError`. -/
theorem c6_relop_failures :
    resolve_single_rel_spec sampleTree [] '^' 3 =
      Except.error (PyErr.keyError "child not found") ∧
    resolve_single_rel_spec sampleTree [0, 0] '~' 1 =
      Except.error PyErr.stopIteration ∧
    resolve_single_rel_spec sampleTree [] '@' 1 = Except.ok none ∧
    resolve_single_rel_spec sampleTree [] '@' 2 =
      Except.error PyErr.attributeError := by
  refine ⟨rfl, rfl, rfl, rfl⟩

/-- C7 (code bug): a layer-spec whose relation portion contains characters
that are not valid operators does not fail with *InvalidSpec*:
`LAYER_SPEC_RE` always matches and `finditer` silently skips foreign
characters, so `root^x` resolves to the first child of the root; and `?`
is accepted as a command by `LAYER_REL_RE` but handled by no branch of
`_resolve_single_rel_spec`, so the spec `?` yields Python `None` with no
error. -/
theorem c7_invalid_spec_not_rejected :
    find_layer sampleTree [] "root^x" = Except.ok (some [0]) ∧
    find_layer sampleTree [] "?" = Except.ok none := by
  refine ⟨rfl, rfl⟩

/-- One branch of a live aufs mount (`AUFSMountBranch`): its contents path
and its permission.  The branch's aufs index is its position in the list,
which `AUFSMount.update` keeps sorted by index. -/
structure MBranch where
  path : String
  perm : Perm
deriving DecidableEq, Repr

/-- `AUFSMount.get_branch_by_path` (aufs.py lines 81-86) together with the
branch's index: the first branch with the given path, or `none` for the
`KeyError` that `find_mounted_branches_iter` catches. -/
def findBranch (contents : String) : List MBranch → Option (Nat × MBranch)
  | [] => none
  | b :: bs =>
    if b.path = contents then some (0, b)
    else (findBranch contents bs).map (fun pr => (pr.1 + 1, pr.2))

/-- `AUFSMountBranch.permission` setter (aufs.py lines 131-136): remount
with `mod:<path>=<perm>`, which changes the permission of the branch with
that path. -/
def set_permission (contents : String) (perm : Perm) : List MBranch → List MBranch
  | [] => []
  | b :: bs =>
    if b.path = contents then { b with perm := perm } :: bs
    else b :: set_permission contents perm bs

/-- `AUFSMountBranch.insert_after` (aufs.py lines 145-151): remount with
`add:<index>:<path>=<perm>`.  The aufs `add` mutation places the new branch
at the given index, pushing the branch formerly there one position down, so
the new branch sits immediately above the old one. -/
def insert_after (m : List MBranch) (idx : Nat) (b : MBranch) : List MBranch :=
  m.take idx ++ b :: m.drop idx

/-- The state after `NarutoLayer.freeze_mounts`: the mutated mounts, the
`child` local (the contents path of the lazily created child, if any), and
how many times `self._create_child()` ran. -/
structure FreezeState where
  mounts : List (List MBranch)
  child : Option String
  createCalls : Nat
deriving DecidableEq, Repr

/-- The body of the `freeze_mounts` loop (layer.py lines 374-387) for one
mount: skip when the layer's contents is not a branch (the caught
`KeyError`) or when its branch is already `ro`; otherwise flip it to `ro`
and, when `preserve_rw`, insert the preservation child above it — creating
the child on the first such flip only (`supply calls` is the fresh layer's
contents path for the call-number-th `_create_child`). -/
def freezeOne (contents : String) (supply : Nat → String) (preserve : Bool)
    (m : List MBranch) (child : Option String) (calls : Nat) :
    List MBranch × Option String × Nat :=
  match findBranch contents m with
  | none => (m, child, calls)
  | some (i, b) =>
    if b.perm = Perm.ro then (m, child, calls)
    else if preserve then
      match child with
      | some c =>
        (insert_after (set_permission contents Perm.ro m) i ⟨c, Perm.rw⟩,
          some c, calls)
      | none =>
        (insert_after (set_permission contents Perm.ro m) i ⟨supply calls, Perm.rw⟩,
          some (supply calls), calls + 1)
    else (set_permission contents Perm.ro m, child, calls)

/-- `freeze_mounts` over the snapshot of aufs mounts, threading the lazy
`child` and the `_create_child` call count through the loop.  Each mount's
branch list is read when the loop reaches it and mutations touch only that
mount, so the fold over the snapshot is exact. -/
def freezeLoop (contents : String) (supply : Nat → String) (preserve : Bool) :
    List (List MBranch) → Option String → Nat → FreezeState
  | [], child, calls => ⟨[], child, calls⟩
  | m :: ms, child, calls =>
    let r := freezeOne contents supply preserve m child calls
    let rest := freezeLoop contents supply preserve ms r.2.1 r.2.2
    ⟨r.1 :: rest.mounts, rest.child, rest.createCalls⟩

/-- `NarutoLayer.freeze_mounts` (layer.py lines 367-389), starting from
`child = None` and no `_create_child` calls. -/
def freeze_mounts (contents : String) (supply : Nat → String) (preserve : Bool)
    (mounts : List (List MBranch)) : FreezeState :=
  freezeLoop contents supply preserve mounts none 0

/-- Whether a mount is affected by the freeze: its first branch with the
layer's contents path exists and is `rw`. -/
def affectedRW (contents : String) (m : List MBranch) : Bool :=
  match findBranch contents m with
  | none => false
  | some (_, b) => decide (b.perm = Perm.rw)

/-- The per-mount effect of the freeze protocol as the specification words
it: branches of other layers and already-`ro` branches are untouched; an
`rw` branch of the layer at index `i` becomes `ro` with the preservation
child's contents spliced immediately above it as `rw`. -/
def freezeSpecOne (contents childContents : String) (m : List MBranch) :
    List MBranch :=
  match findBranch contents m with
  | none => m
  | some (i, b) =>
    if b.perm = Perm.ro then m
    else m.take i ++ ⟨childContents, Perm.rw⟩ :: ⟨contents, Perm.ro⟩ :: m.drop (i + 1)

/-- Splicing below a `cons` shifts the index by one. -/
theorem insert_after_cons (a : MBranch) (l : List MBranch) (n : Nat) (x : MBranch) :
    insert_after (a :: l) (n + 1) x = a :: insert_after l n x := by
  simp [insert_after]

/-- A found branch names the layer's contents, sits inside the list, and
the `mod` remount followed by the `add` remount rewrite the list into the
take/splice/drop shape. -/
theorem findBranch_set_insert (contents c : String) (m : List MBranch)
    (i : Nat) (b : MBranch) (h : findBranch contents m = some (i, b)) :
    b.path = contents ∧ i < m.length ∧
    set_permission contents Perm.ro m =
      m.take i ++ ⟨contents, Perm.ro⟩ :: m.drop (i + 1) ∧
    insert_after (set_permission contents Perm.ro m) i ⟨c, Perm.rw⟩ =
      m.take i ++ ⟨c, Perm.rw⟩ :: ⟨contents, Perm.ro⟩ :: m.drop (i + 1) := by
  induction m generalizing i b with
  | nil => simp [findBranch] at h
  | cons a m ih =>
    by_cases ha : a.path = contents
    · simp only [findBranch, ha, if_true, Option.some.injEq, Prod.mk.injEq] at h
      obtain ⟨hi, hb⟩ := h
      subst hi
      subst hb
      have haro : ({ a with perm := Perm.ro } : MBranch) = ⟨contents, Perm.ro⟩ := by
        cases a with
        | mk pa pe =>
          simp only [MBranch.mk.injEq]
          exact ⟨ha, trivial⟩
      refine ⟨ha, Nat.succ_pos _, ?_, ?_⟩
      · simp [set_permission, ha, haro]
      · simp [insert_after, set_permission, ha, haro]
    · simp only [findBranch, ha, if_false] at h
      cases hfb : findBranch contents m with
      | none => rw [hfb] at h; exact absurd h (by simp)
      | some pr =>
        obtain ⟨i0, b0⟩ := pr
        rw [hfb] at h
        simp only [Option.map_some', Option.some.injEq, Prod.mk.injEq] at h
        obtain ⟨hi, hb⟩ := h
        subst hi
        subst hb
        obtain ⟨hp, hlen, hset, hins⟩ := ih i0 b0 hfb
        have hcons : set_permission contents Perm.ro (a :: m) =
            a :: set_permission contents Perm.ro m := by
          simp [set_permission, ha]
        refine ⟨hp, by simpa using Nat.succ_lt_succ hlen, ?_, ?_⟩
        · rw [hcons, hset]
          simp
        · rw [hcons, insert_after_cons, hins]
          simp

/-- Once the preservation child exists, the loop reuses it: no further
`_create_child` call happens, and every remaining affected mount is
rewritten with that same child. -/
theorem freezeLoop_with_child (contents : String) (supply : Nat → String)
    (c : String) (ms : List (List MBranch)) (calls : Nat) :
    freezeLoop contents supply true ms (some c) calls =
      ⟨ms.map (freezeSpecOne contents c), some c, calls⟩ := by
  induction ms with
  | nil => rfl
  | cons m ms ih =>
    cases hfb : findBranch contents m with
    | none =>
      simp only [freezeLoop, freezeOne, hfb]
      rw [ih]
      simp [freezeSpecOne, hfb]
    | some pr =>
      obtain ⟨i, b⟩ := pr
      by_cases hro : b.perm = Perm.ro
      · simp only [freezeLoop, freezeOne, hfb, hro, if_true]
        rw [ih]
        simp [freezeSpecOne, hfb, hro]
      · obtain ⟨hp, hlen, hset, hins⟩ := findBranch_set_insert contents c m i b hfb
        simp only [freezeLoop, freezeOne, hfb, hro, if_false, if_true]
        rw [ih]
        simp [freezeSpecOne, hfb, hro, hins]

/-- From an unallocated child, the loop allocates exactly when some mount is
affected, names the child by the current call count, and rewrites every
mount with it. -/
theorem freezeLoop_no_child (contents : String) (supply : Nat → String)
    (ms : List (List MBranch)) (calls : Nat) :
    freezeLoop contents supply true ms none calls =
      ⟨ms.map (freezeSpecOne contents (supply calls)),
       if ms.any (affectedRW contents) then some (supply calls) else none,
       calls + (if ms.any (affectedRW contents) then 1 else 0)⟩ := by
  induction ms generalizing calls with
  | nil => simp [freezeLoop]
  | cons m ms ih =>
    cases hfb : findBranch contents m with
    | none =>
      have haff : affectedRW contents m = false := by simp [affectedRW, hfb]
      simp only [freezeLoop, freezeOne, hfb]
      rw [ih]
      simp [freezeSpecOne, hfb, haff, List.any_cons]
    | some pr =>
      obtain ⟨i, b⟩ := pr
      by_cases hro : b.perm = Perm.ro
      · have haff : affectedRW contents m = false := by
          simp [affectedRW, hfb, hro]
        simp only [freezeLoop, freezeOne, hfb, hro, if_true]
        rw [ih]
        simp [freezeSpecOne, hfb, hro, haff, List.any_cons]
      · have hrw : b.perm = Perm.rw := by
          cases hb : b.perm
          · rfl
          · exact absurd hb hro
        have haff : affectedRW contents m = true := by
          simp [affectedRW, hfb, hrw]
        obtain ⟨hp, hlen, hset, hins⟩ :=
          findBranch_set_insert contents (supply calls) m i b hfb
        simp only [freezeLoop, freezeOne, hfb, hro, if_false, if_true]
        rw [freezeLoop_with_child]
        simp [freezeSpecOne, hfb, hro, hins, haff, List.any_cons]

/-- C1: a single `freeze_mounts(preserve_rw=True)` call performs at most one
`_create_child` — exactly one when some mount holds the layer's contents as
an `rw` branch, none otherwise (the child is lazy) — and rewrites every
mount by the specification's per-mount transformation with that one shared
child (`supply 0`): the first `rw` branch with the layer's contents flips
to `ro` and the child's contents directory is spliced immediately above it
as `rw`; mounts whose matching branch is already `ro`, or which do not
contain the layer, are unchanged. -/
theorem c1_freeze_single_shared_child (contents : String) (supply : Nat → String)
    (mounts : List (List MBranch)) :
    (freeze_mounts contents supply true mounts).createCalls ≤ 1 ∧
    ((freeze_mounts contents supply true mounts).createCalls = 1 ↔
      mounts.any (affectedRW contents) = true) ∧
    ((freeze_mounts contents supply true mounts).createCalls = 0 ↔
      mounts.any (affectedRW contents) = false) ∧
    (freeze_mounts contents supply true mounts).mounts =
      mounts.map (freezeSpecOne contents (supply 0)) := by
  unfold freeze_mounts
  rw [freezeLoop_no_child]
  cases hany : mounts.any (affectedRW contents) with
  | true => simp [hany]
  | false => simp [hany]

/-- One aufs mount as `unmount_all` sees it: its mountpoint and the branch
stack read from `/sys/fs/aufs` at inspection time. -/
structure AMount where
  mountpoint : String
  branches : List MBranch
deriving DecidableEq, Repr

/-- Whether `get_branch_by_path(self.contents)` succeeds on this mount —
the inspection step of `find_mounted_branches_iter`, whose `KeyError` is
caught. -/
def containsBranch (contents : String) (m : AMount) : Bool :=
  m.branches.any (fun b => decide (b.path = contents))

/-- The error `sh.umount` raises when its target is no longer mounted
(nonzero exit, `sh.ErrorReturnCode`); `AUFSMount.unmount` (aufs.py lines
88-90) wraps it in no handler. -/
inductive UmountErr where
  | errorReturnCode (target : String)
deriving DecidableEq, Repr

/-- `NarutoLayer.unmount_all` (layer.py lines 358-365).  `snapshot` is the
mount list read during inspection; `live` is the set of mountpoints still
mounted when each unmount action runs, returned updated on success.  For
each snapshot mount whose branches contain the layer's contents, `umount`
is issued: it removes a live mountpoint, and raises on a mountpoint that
has disappeared — which aborts the loop, since nothing catches the error. -/
def unmount_all (contents : String) :
    List AMount → List String → Except UmountErr (List String)
  | [], live => Except.ok live
  | m :: rest, live =>
    if containsBranch contents m = true then
      if m.mountpoint ∈ live then
        unmount_all contents rest (live.erase m.mountpoint)
      else Except.error (UmountErr.errorReturnCode m.mountpoint)
    else unmount_all contents rest live

/-- Counterexample to C8: the snapshot saw the layer's contents mounted at
`/m1` and `/m2`, but `/m1` disappeared before its unmount action.  The
`sh.ErrorReturnCode` propagates — it is not swallowed — and `/m2` is never
unmounted (the result is an error, not `ok` with `/m2` removed). -/
theorem c8_counterexample :
    unmount_all "c" [⟨"/m1", [⟨"c", Perm.rw⟩]⟩, ⟨"/m2", [⟨"c", Perm.ro⟩]⟩]
        ["/m2"] =
      Except.error (UmountErr.errorReturnCode "/m1") := by
  rfl

/-- C8 (amended): when no inspected mount disappears before its unmount
action, `unmount_all` succeeds and unmounts exactly the mounts containing
the layer's contents; but a disappeared mount makes the unchecked
`sh.ErrorReturnCode` from `umount` propagate, leaving the remaining mounts
mounted — the operation is not idempotent in that case. -/
theorem c8_unmount_all_when_all_present (contents : String)
    (snapshot : List AMount) (live : List String)
    (hlive : live.Nodup)
    (hpts : ((snapshot.filter (containsBranch contents)).map
      AMount.mountpoint).Nodup)
    (hpresent : ∀ m ∈ snapshot, containsBranch contents m = true →
      m.mountpoint ∈ live) :
    unmount_all contents snapshot live =
      Except.ok (live.filter (fun x =>
        decide (x ∉ (snapshot.filter (containsBranch contents)).map
          AMount.mountpoint))) := by
  induction snapshot generalizing live with
  | nil =>
    simp only [unmount_all, List.filter_nil, List.map_nil]
    congr 1
    symm
    rw [List.filter_eq_self]
    intro a _
    simp
  | cons m rest ih =>
    by_cases hc : containsBranch contents m = true
    · have hmem : m.mountpoint ∈ live := hpresent m (by simp) hc
      have hfcons : (m :: rest).filter (containsBranch contents) =
          m :: rest.filter (containsBranch contents) := by
        simp [List.filter_cons, hc]
      rw [hfcons] at hpts
      simp only [List.map_cons, List.nodup_cons] at hpts
      obtain ⟨hnotin, hpts2⟩ := hpts
      have hres := ih (live.erase m.mountpoint) (hlive.erase _) hpts2 ?hpre
      case hpre =>
        intro m2 hm2 hc2
        have hne : m2.mountpoint ≠ m.mountpoint := by
          intro heq
          exact hnotin (heq ▸ List.mem_map_of_mem AMount.mountpoint
            (List.mem_filter.2 ⟨hm2, hc2⟩))
        exact (List.mem_erase_of_ne hne).2 (hpresent m2 (by simp [hm2]) hc2)
      show (if containsBranch contents m = true then
          if m.mountpoint ∈ live then
            unmount_all contents rest (live.erase m.mountpoint)
          else Except.error (UmountErr.errorReturnCode m.mountpoint)
        else unmount_all contents rest live) = _
      rw [if_pos hc, if_pos hmem, hres, hfcons]
      congr 1
      rw [hlive.erase_eq_filter, List.filter_filter]
      apply List.filter_congr
      intro x _
      simp only [List.map_cons, List.mem_cons, not_or, decide_eq_true_eq]
      rcases Decidable.em (x = m.mountpoint) with hx | hx
      · simp [hx]
      · simp [hx, ne_comm.1 hx]
    · have hfcons : (m :: rest).filter (containsBranch contents) =
          rest.filter (containsBranch contents) := by
        simp [List.filter_cons, hc]
      rw [hfcons] at hpts
      show (if containsBranch contents m = true then
          if m.mountpoint ∈ live then
            unmount_all contents rest (live.erase m.mountpoint)
          else Except.error (UmountErr.errorReturnCode m.mountpoint)
        else unmount_all contents rest live) = _
      rw [if_neg hc,
        ih live hlive hpts (fun m2 hm2 hc2 => hpresent m2 (by simp [hm2]) hc2),
        hfcons]

/-- Witness for the amended C8: two live mounts of the layer, none
disappeared; both are unmounted and the unrelated mountpoint survives. -/
theorem c8_unmount_all_when_all_present_witness :
    unmount_all "c" [⟨"/m1", [⟨"c", Perm.rw⟩]⟩, ⟨"/m2", [⟨"c", Perm.ro⟩]⟩]
        ["/m1", "/m2", "/other"] =
      Except.ok ((["/m1", "/m2", "/other"] : List String).filter (fun x =>
        decide (x ∉ (([⟨"/m1", [⟨"c", Perm.rw⟩]⟩,
            ⟨"/m2", [⟨"c", Perm.ro⟩]⟩] : List AMount).filter
          (containsBranch "c")).map AMount.mountpoint))) :=
  c8_unmount_all_when_all_present "c"
    [⟨"/m1", [⟨"c", Perm.rw⟩]⟩, ⟨"/m2", [⟨"c", Perm.ro⟩]⟩]
    ["/m1", "/m2", "/other"] (by decide) (by decide)
    (by intro m hm hc; fin_cases hm <;> simp_all)

/-- C9: writing a tag sequence and reading it back yields exactly the set of
its elements (duplicates removed, order not observable), and writing the same
sequence again leaves the observed tag set unchanged. -/
theorem c9_tags_roundtrip (md : Metadata) (ts : List String) :
    tags_read (tags_write md ts) = ts.toFinset ∧
    tags_read (tags_write (tags_write md ts) ts) = tags_read (tags_write md ts) := by
  have hsame : ∀ m : Metadata, tags_read (tags_write m ts) = ts.toFinset := by
    intro m
    apply Finset.ext
    intro a
    simp [tags_read, tags_write, List.mem_toFinset, List.mem_dedup]
  exact ⟨hsame md, by rw [hsame, hsame]⟩

end Naruto
